import Mathlib

/-!
Shallow embedding of the numerical layer of an early Stan snapshot:
the special-function library (`special_functions.hpp`), the binomial
log-mass (`binomial.hpp`) and the Wishart log-density (`wishart.hpp`).

Doubles are modelled as exact rationals; the transcendental collaborators
(`std::log`, `lgamma`) are abstract parameters of type `ℚ → ℚ`, so every
definition stays computable and algebraic identities of the code are
quantified over them.  Fallible code (validation failures, thrown
exceptions) returns `Option ℚ` with `none` standing for the reported
domain error / policy sentinel.
-/

namespace Stan

/-- `log1pCore log x` is the branch logic of `stan::math::log1p` after its
domain check: `log(1+x)` when `|x| > 1e-9`, the second-order Taylor
polynomial `x - 0.5*x*x` when `1e-16 < |x| ≤ 1e-9`, and the first-order
Taylor value `x` when `|x| ≤ 1e-16` (special_functions.hpp). -/
def log1pCore (log : ℚ → ℚ) (x : ℚ) : ℚ :=
  if x > 1/10^9 ∨ x < -(1/10^9) then log (1 + x)
  else if x > 1/10^16 ∨ x < -(1/10^16) then x - (1/2) * x * x
  else x

/-- `stan::math::log1p`: throws a domain error for `x < -1` (modelled as
`none`), otherwise returns the stabilized branch value. -/
def log1p (log : ℚ → ℚ) (x : ℚ) : Option ℚ :=
  if x < -1 then none else some (log1pCore log x)

/-- `stan::math::log1m(x) = log1p(-x)` (special_functions.hpp). -/
def log1m (log : ℚ → ℚ) (x : ℚ) : Option ℚ :=
  log1p log (-x)

/-- `stan::math::multiply_log(a,b)`: `0` when `a = 0` and `b = 0`,
otherwise `a * log b` (special_functions.hpp). -/
def multiply_log (log : ℚ → ℚ) (a b : ℚ) : ℚ :=
  if b = 0 ∧ a = 0 then 0 else a * log b

/-- The exact log-gamma branch of `binomial_coefficient_log`:
`lgamma(N+1) - lgamma(n+1) - lgamma(N-n+1)`. -/
def lgammaForm (lgamma : ℚ → ℚ) (N n : ℚ) : ℚ :=
  lgamma (N + 1) - lgamma (n + 1) - lgamma (N - n + 1)

/-- The asymptotic-expansion branch of `binomial_coefficient_log`:
`n*log(N-n) + (N+0.5)*log(N/(N-n)) + 1/(12N) - n - 1/(12(N-n)) - lgamma(n+1)`. -/
def asymptoticForm (lgamma log : ℚ → ℚ) (N n : ℚ) : ℚ :=
  n * log (N - n) + (N + 1/2) * log (N / (N - n))
    + 1 / (12 * N) - n - 1 / (12 * (N - n)) - lgamma (n + 1)

/-- `stan::math::binomial_coefficient_log(N,n)` with `cutoff = 1000`:
the log-gamma form when `N < cutoff` or `N - n < cutoff`, and the
asymptotic expansion otherwise (special_functions.hpp). -/
def binomial_coefficient_log (lgamma log : ℚ → ℚ) (N n : ℚ) : ℚ :=
  if N < 1000 ∨ N - n < 1000 then lgammaForm lgamma N n
  else asymptoticForm lgamma log N n

/-- `stan::math::inv_logit(a) = 1 / (1 + exp(-a))` (special_functions.hpp). -/
def inv_logit (exp : ℚ → ℚ) (a : ℚ) : ℚ :=
  1 / (1 + exp (-a))

/-- `stan::math::lmgamma(k,x) = k*(k-1)*log(pi)/4 + Σ_{j=1}^k lgamma(x + (1-j)/2)`;
the constant `LOG_PI_OVER_FOUR` is an abstract parameter
(special_functions.hpp). -/
def lmgamma (logPiOverFour : ℚ) (lgamma : ℚ → ℚ) (k : ℕ) (x : ℚ) : ℚ :=
  (k : ℚ) * ((k : ℚ) - 1) * logPiOverFour
    + (List.range k).foldl (fun r j => r + lgamma (x + (1 - ((j : ℚ) + 1)) / 2)) 0

/-- The anonymous-namespace helper `maximum` of special_functions.hpp,
embedded exactly as written: it starts from `x[0]` and replaces the
accumulator whenever `x[i] < max_x`, so the loop in fact keeps the
smallest element; an empty vector throws `invalid_argument` (`none`). -/
def maximum (x : List ℚ) : Option ℚ :=
  match x with
  | [] => none
  | x0 :: rest => some (rest.foldl (fun m v => if v < m then v else m) x0)

/-- `stan::math::softmax`: exponentiates each entry shifted by the value the
`maximum` helper returns, then normalizes by the accumulated sum
(special_functions.hpp).  The output vector is returned instead of being
written through a reference; an empty input throws (`none`). -/
def softmax (exp : ℚ → ℚ) (x : List ℚ) : Option (List ℚ) :=
  match maximum x with
  | none => none
  | some mx =>
    let e := x.map (fun v => exp (v - mx))
    some (e.map (fun v => v / e.sum))

/-- The list of arguments `x[i] - max_x` that `softmax` passes to `exp`. -/
def softmaxExpArgs (x : List ℚ) : Option (List ℚ) :=
  match maximum x with
  | none => none
  | some mx => some (x.map (fun v => v - mx))

/-- A double restricted to the values the pairwise `log_sum_exp` can meet:
a finite rational, the two infinities, or NaN. -/
inductive D where
  | nan : D
  | ninf : D
  | pinf : D
  | fin : ℚ → D
deriving DecidableEq

/-- IEEE-style subtraction on `D`: finite minus finite is exact, mixed
infinities follow the usual rules, `(-inf) - (-inf)` and `inf - inf`
are NaN, and NaN propagates. -/
def dSub : D → D → D
  | D.fin a, D.fin b => D.fin (a - b)
  | D.ninf, D.fin _ => D.ninf
  | D.fin _, D.ninf => D.pinf
  | D.ninf, D.ninf => D.nan
  | D.pinf, D.fin _ => D.pinf
  | D.fin _, D.pinf => D.ninf
  | D.pinf, D.pinf => D.nan
  | D.pinf, D.ninf => D.pinf
  | D.ninf, D.pinf => D.ninf
  | D.nan, _ => D.nan
  | _, D.nan => D.nan

/-- IEEE-style addition on `D`. -/
def dAdd : D → D → D
  | D.fin a, D.fin b => D.fin (a + b)
  | D.ninf, D.fin _ => D.ninf
  | D.fin _, D.ninf => D.ninf
  | D.ninf, D.ninf => D.ninf
  | D.pinf, D.fin _ => D.pinf
  | D.fin _, D.pinf => D.pinf
  | D.pinf, D.pinf => D.pinf
  | D.pinf, D.ninf => D.nan
  | D.ninf, D.pinf => D.nan
  | D.nan, _ => D.nan
  | _, D.nan => D.nan

/-- IEEE-style `>` on `D`: any comparison against NaN is false. -/
def dGT : D → D → Bool
  | D.fin a, D.fin b => a > b
  | D.pinf, D.fin _ => true
  | D.pinf, D.ninf => true
  | D.fin _, D.ninf => true
  | _, _ => false

/-- `std::exp` on `D`: `exp(-inf) = 0`, `exp(inf) = inf`, NaN propagates;
finite arguments go to the abstract collaborator `exp`. -/
def dExp (exp : ℚ → ℚ) : D → D
  | D.fin q => D.fin (exp q)
  | D.ninf => D.fin 0
  | D.pinf => D.pinf
  | D.nan => D.nan

/-- `stan::math::log1p` on `D` as the pairwise `log_sum_exp` invokes it:
finite arguments use the `log1pCore` branch logic, `+inf` maps to `+inf`
(the `|x| > 1e-9` branch), and NaN falls through every comparison to the
final branch, returning itself. -/
def dLog1p (log : ℚ → ℚ) : D → D
  | D.fin q => D.fin (log1pCore log q)
  | D.pinf => D.pinf
  | D.ninf => D.nan
  | D.nan => D.nan

/-- Pairwise `stan::math::log_sum_exp(a,b)` (special_functions.hpp):
`a > b` selects `a + log1p(exp(b - a))`, otherwise `b + log1p(exp(a - b))`. -/
def log_sum_exp (exp log : ℚ → ℚ) (a b : D) : D :=
  if dGT a b then dAdd a (dLog1p log (dExp exp (dSub b a)))
  else dAdd b (dLog1p log (dExp exp (dSub a b)))

/-- The n-ary `log_sum_exp` input scalar: a finite rational or `⊥ = -inf`. -/
abbrev ERat := WithBot ℚ

/-- The max-finding loop of the n-ary `log_sum_exp`: `max` starts at
`-inf` and is replaced whenever `x[ii] > max`. -/
def lseMax (x : List ERat) : ERat :=
  x.foldl (fun m v => if m < v then v else m) ⊥

/-- The finite entries of the input, in order: the n-ary `log_sum_exp`
sums `exp(x[ii] - max)` exactly over these (`x[ii] != -inf`). -/
def finiteEntries (x : List ERat) : List ℚ :=
  x.foldr (fun v acc => WithBot.recBotCoe acc (fun q => q :: acc) v) []

/-- The accumulation loop of the n-ary `log_sum_exp`: `sum` starts at `0`
and each entry different from `-inf` contributes `exp(x[ii] - max)`. -/
def lseSum (exp : ℚ → ℚ) (m : ℚ) (x : List ERat) : ℚ :=
  x.foldl (fun s v => WithBot.recBotCoe s (fun q => s + exp (q - m)) v) 0

/-- The n-ary `stan::math::log_sum_exp(std::vector<double>)`
(special_functions.hpp): find the maximum, sum `exp(x[ii] - max)` over the
entries different from `-inf`, and return `max + log(sum)`.  When every
entry is `-inf` (or the vector is empty) the maximum stays `-inf`, the
sum stays `0`, and the IEEE evaluation `-inf + log(0) = -inf + -inf`
returns `-inf`. -/
def log_sum_exp_vec (exp log : ℚ → ℚ) (x : List ERat) : ERat :=
  WithBot.recBotCoe ⊥ (fun m => ((m + log (lseSum exp m x) : ℚ) : ERat)) (lseMax x)

/-- Modelled from the spec: `stan::prob::include_summand` (stan/prob/traits.hpp
is not under src/).  Per §4.4 and §2, a term is computed when the
proportionality flag is off, or when at least one of the scalar types the
term depends on is a differentiable (tracked) type; each dependent type is
modelled by a `Bool` that is `true` when it is differentiable. -/
def include_summand (propto : Bool) (vars : List Bool) : Bool :=
  !propto || vars.any id

/-- `stan::prob::binomial_log<propto>(n, N, theta)` (binomial.hpp).
Validation in declaration order with short-circuit: `n ∈ [0, N]`,
`N ≥ 0`, `theta` finite (always true over `ℚ`), `theta ∈ [0, 1]`; a failed
check returns the policy sentinel (`none`).  Then the two summands, each
guarded by `include_summand`: the `theta`-free term
`binomial_coefficient_log(N, n)` and the `theta`-dependent term
`multiply_log(n, theta) + (N - n) * log1m(theta)`.  `thetaVar` is true
when `T_prob` is a differentiable scalar type. -/
def binomial_log (lgamma log : ℚ → ℚ) (propto thetaVar : Bool)
    (n N : ℤ) (theta : ℚ) : Option ℚ :=
  if ¬ (0 ≤ n ∧ n ≤ N) then none
  else if ¬ (0 ≤ N) then none
  else if ¬ (0 ≤ theta ∧ theta ≤ 1) then none
  else some
    ((if include_summand propto [] then
        binomial_coefficient_log lgamma log (N : ℚ) (n : ℚ) else 0)
     + (if include_summand propto [thetaVar] then
        multiply_log log (n : ℚ) theta
          + ((N : ℚ) - (n : ℚ)) * log1pCore log (-theta) else 0))

/-- A dynamically sized matrix: row and column counts with an entry map. -/
structure Mat where
  rows : ℕ
  cols : ℕ
  entry : ℕ → ℕ → ℚ

/-- The k-by-k identity matrix. -/
def identityMat (k : ℕ) : Mat :=
  ⟨k, k, fun i j => if i = j then 1 else 0⟩

/-- Modelled from the spec: the linear-algebra collaborator (§6)
supplies `determinant`, `trace`, `inverse` and `multiply` over matrices
of the same scalar type; `wishart_log` takes them as parameters. -/
structure LinAlg where
  det : Mat → ℚ
  tr : Mat → ℚ
  inv : Mat → Mat
  mul : Mat → Mat → Mat

/-- `stan::prob::wishart_log<propto>(W, nu, S)` (wishart.hpp), with `k`
taken from `W.rows` (the C++ `k` is `unsigned int`, so the model is
faithful for `1 ≤ W.rows`).  Validation in order with short-circuit:
`nu ≥ k - 1`, `W` square, `S` square, `W.rows = S.rows`; a failed check
returns the policy sentinel (`none`).  The accumulated terms, each behind
its `include_summand` guard, follow the source exactly — in particular the
trace term is `-0.5 * fabs(trace(inverse(S) * W))`, and the
`log |det W|` term is skipped when `nu = k + 1`.
`NEG_LOG_TWO_OVER_TWO` is `-log(2)/2` over the abstract `log`;
`yVar`, `dofVar`, `sVar` say which of `T_y`, `T_dof`, `T_scale` are
differentiable. -/
def wishart_log (la : LinAlg) (logPiOverFour : ℚ) (lgamma log : ℚ → ℚ)
    (propto yVar dofVar sVar : Bool)
    (W : Mat) (nu : ℚ) (S : Mat) : Option ℚ :=
  let k := W.rows
  if ¬ ((k : ℚ) - 1 ≤ nu) then none
  else if ¬ (W.rows = W.cols) then none
  else if ¬ (S.rows = S.cols) then none
  else if ¬ (W.rows = S.rows) then none
  else some
    ((if include_summand propto [dofVar] then nu * (k : ℚ) * (-(log 2) / 2) else 0)
     - (if include_summand propto [dofVar] then
         lmgamma logPiOverFour lgamma k ((1/2) * nu) else 0)
     - (if include_summand propto [dofVar, sVar] then
         multiply_log log ((1/2) * nu) (la.det S) else 0)
     - (if include_summand propto [sVar, yVar] then
         (1/2) * |la.tr (la.mul (la.inv S) W)| else 0)
     + (if include_summand propto [yVar, dofVar] then
         (if nu ≠ (k : ℚ) + 1 then
           multiply_log log ((1/2) * (nu - ((k : ℚ) + 1))) (la.det W) else 0)
        else 0))

/-! ## Claim theorems -/

/-- C1: the claim says `softmax` subtracts the maximum element before
exponentiating, so that every exponent argument is `≤ 0`.  The helper
`maximum` updates its accumulator on `x[i] < max_x` and therefore returns
the smallest element: on `x = [0, 1]` it yields `0` (the true maximum is
`1`), the exponent arguments are `[0, 1]`, and the argument `1` is
positive — the claimed overflow guard is absent. -/
theorem C1_maximum_returns_minimum :
    maximum [(0 : ℚ), 1] = some 0
      ∧ ((0 : ℚ) :: [(1 : ℚ)]).foldr max 0 = 1
      ∧ softmaxExpArgs [(0 : ℚ), 1] = some [0, 1]
      ∧ ¬ (∀ a ∈ [(0 : ℚ), 1], a ≤ 0) := by
  refine ⟨by norm_num [maximum], by norm_num,
    by norm_num [softmaxExpArgs, maximum], ?_⟩
  intro h
  exact absurd (h 1 (by simp)) (by norm_num)

/-- C9: `inv_logit(a) = 1 / (1 + exp(-a))` lies strictly within `(0, 1)`
for every finite input, for any exponential collaborator that is
strictly positive (as the real `exp` is). -/
theorem C9_inv_logit_range (exp : ℚ → ℚ) (hexp : ∀ x, 0 < exp x) (a : ℚ) :
    0 < inv_logit exp a ∧ inv_logit exp a < 1 := by
  have h := hexp (-a)
  constructor
  · exact div_pos one_pos (by linarith)
  · rw [inv_logit, div_lt_one (by linarith)]
    linarith

/-- Witness for C9 at `exp = const 1`, `a = 0`: `inv_logit 0 = 1/2`. -/
theorem C9_witness :
    0 < inv_logit (fun _ => (1 : ℚ)) 0 ∧ inv_logit (fun _ => (1 : ℚ)) 0 < 1 :=
  C9_inv_logit_range (fun _ => (1 : ℚ)) (fun _ => one_pos) 0

/-- C6 counterexample: the claim says every in-domain input is handled by
`log(1+x)` away from 0 or by the second-order Taylor polynomial near 0.
At `x = 1e-16` (in-domain) the code takes its third branch and returns
`x` itself, which is neither: with the collaborator `log = const 42`,
the result differs from both claimed forms. -/
theorem C6_counterexample :
    log1p (fun _ => (42 : ℚ)) (1/10^16) ≠ some ((fun _ => (42 : ℚ)) (1 + 1/10^16))
      ∧ log1p (fun _ => (42 : ℚ)) (1/10^16)
          ≠ some (1/10^16 - (1/2) * (1/10^16) * (1/10^16)) := by
  constructor <;> norm_num [log1p, log1pCore]

/-- C6 as amended: `log1p` reports a domain error exactly for `x < -1` and
`log1m` exactly for `x > 1`; in-domain inputs return without error, with
`log(1+x)` for `|x| > 1e-9`, the second-order Taylor value `x - x²/2` for
`1e-16 < |x| ≤ 1e-9`, and the first-order Taylor value `x` for
`|x| ≤ 1e-16`. -/
theorem C6_log1p_log1m_regimes (log : ℚ → ℚ) (x : ℚ) :
    (log1p log x = none ↔ x < -1)
      ∧ (log1m log x = none ↔ 1 < x)
      ∧ (-1 ≤ x → 1/10^9 < |x| → log1p log x = some (log (1 + x)))
      ∧ (|x| ≤ 1/10^9 → 1/10^16 < |x| → log1p log x = some (x - (1/2) * x * x))
      ∧ (|x| ≤ 1/10^16 → log1p log x = some x) := by
  have habs9 : 1/10^9 < |x| ↔ (x > 1/10^9 ∨ x < -(1/10^9)) := by
    rw [lt_abs]
    constructor
    · rintro (h | h)
      · exact Or.inl h
      · exact Or.inr (by linarith)
    · rintro (h | h)
      · exact Or.inl h
      · exact Or.inr (by linarith)
  have habs16 : 1/10^16 < |x| ↔ (x > 1/10^16 ∨ x < -(1/10^16)) := by
    rw [lt_abs]
    constructor
    · rintro (h | h)
      · exact Or.inl h
      · exact Or.inr (by linarith)
    · rintro (h | h)
      · exact Or.inl h
      · exact Or.inr (by linarith)
  refine ⟨?_, ?_, ?_, ?_, ?_⟩
  · unfold log1p
    split_ifs with h
    · exact iff_of_true rfl h
    · exact iff_of_false (by simp) h
  · unfold log1m log1p
    split_ifs with h
    · exact iff_of_true rfl (by linarith)
    · exact iff_of_false (by simp) (fun h2 => absurd (by linarith : -x < -1) h)
  · intro h1 h2
    rw [log1p, if_neg (by linarith), log1pCore, if_pos (habs9.1 h2)]
  · intro h1 h2
    have hb := abs_le.1 h1
    rw [log1p, if_neg (by linarith [hb.1]), log1pCore,
      if_neg (by rw [not_or]; constructor <;> [linarith [hb.2]; linarith [hb.1]]),
      if_pos (habs16.1 h2)]
  · intro h1
    have hb := abs_le.1 h1
    rw [log1p, if_neg (by linarith [hb.1]), log1pCore,
      if_neg (by rw [not_or]; constructor <;> [linarith [hb.2]; linarith [hb.1]]),
      if_neg (by rw [not_or]; constructor <;> [linarith [hb.2]; linarith [hb.1]])]

/-- Witness for C6 at `x = 1/2` (direct-log regime) and `x = 1e-12`
(second-order Taylor regime), with `log = const 7`. -/
theorem C6_witness :
    ((-1 : ℚ) ≤ 1/2 ∧ 1/10^9 < |(1/2 : ℚ)|
        ∧ log1p (fun _ => (7 : ℚ)) (1/2) = some ((fun _ => (7 : ℚ)) (1 + 1/2)))
      ∧ (|(1/10^12 : ℚ)| ≤ 1/10^9 ∧ 1/10^16 < |(1/10^12 : ℚ)|
        ∧ log1p (fun _ => (7 : ℚ)) (1/10^12)
            = some (1/10^12 - (1/2) * (1/10^12) * (1/10^12))) := by
  have h2 : |(1/2 : ℚ)| = 1/2 := abs_of_pos (by norm_num)
  have h12 : |(1/10^12 : ℚ)| = 1/10^12 := abs_of_pos (by norm_num)
  exact ⟨⟨by norm_num, by rw [h2]; norm_num,
      (C6_log1p_log1m_regimes (fun _ => (7 : ℚ)) (1/2)).2.2.1
        (by norm_num) (by rw [h2]; norm_num)⟩,
    ⟨by rw [h12]; norm_num, by rw [h12]; norm_num,
      (C6_log1p_log1m_regimes (fun _ => (7 : ℚ)) (1/10^12)).2.2.2.1
        (by rw [h12]; norm_num) (by rw [h12]; norm_num)⟩⟩

/-- C3 counterexample: the claim says the asymptotic expansion is used as
soon as `N` or `N - n` exceeds 1000.  At `N = 2000`, `n = 1500` we have
`N > 1000`, yet `N - n = 500 < 1000` makes the code take the log-gamma
branch, whose value (here instantiated at `lgamma = log = id`) differs
from the asymptotic expansion. -/
theorem C3_counterexample :
    (1000 : ℚ) < 2000
      ∧ binomial_coefficient_log id id 2000 1500 = lgammaForm id 2000 1500
      ∧ binomial_coefficient_log id id 2000 1500 ≠ asymptoticForm id id 2000 1500 := by
  refine ⟨by norm_num, by norm_num [binomial_coefficient_log], ?_⟩
  norm_num [binomial_coefficient_log, lgammaForm, asymptoticForm]

/-- C3 as amended: `binomial_coefficient_log` returns the exact log-gamma
form whenever `N < 1000` or `N - n < 1000`, and switches to the asymptotic
expansion exactly when both `N ≥ 1000` and `N - n ≥ 1000`. -/
theorem C3_branch_selection (lgamma log : ℚ → ℚ) (N n : ℚ) :
    (N < 1000 ∨ N - n < 1000 →
      binomial_coefficient_log lgamma log N n = lgammaForm lgamma N n)
      ∧ (1000 ≤ N → 1000 ≤ N - n →
        binomial_coefficient_log lgamma log N n = asymptoticForm lgamma log N n) := by
  unfold binomial_coefficient_log
  constructor
  · intro h
    rw [if_pos h]
  · intro h1 h2
    rw [if_neg (by rw [not_or]; constructor <;> [linarith; linarith])]

/-- Witness for C3 at `(N, n) = (500, 0)` (log-gamma branch) and
`(N, n) = (3000, 500)` (asymptotic branch). -/
theorem C3_witness :
    (((500 : ℚ) < 1000 ∨ (500 : ℚ) - 0 < 1000)
        ∧ binomial_coefficient_log id id 500 0 = lgammaForm id 500 0)
      ∧ ((1000 : ℚ) ≤ 3000 ∧ (1000 : ℚ) ≤ 3000 - 500
        ∧ binomial_coefficient_log id id 3000 500 = asymptoticForm id id 3000 500) :=
  ⟨⟨Or.inl (by norm_num),
      (C3_branch_selection id id 500 0).1 (Or.inl (by norm_num))⟩,
    ⟨by norm_num, by norm_num,
      (C3_branch_selection id id 3000 500).2 (by norm_num) (by norm_num)⟩⟩

/-- C2 counterexample: the claim extends the identity
`binomial_log(propto=false) - binomial_log(propto=true) =
binomial_coefficient_log(N,n)` to every admissible scalar type of `theta`.
For a plain (non-differentiable) `theta`, `include_summand` elides every
summand under `propto=true`, so that call returns `0` and the difference
is the whole log-mass, not the coefficient: at `n = 0`, `N = 1`,
`theta = 1/2`, with `lgamma = const 0` and `log = const 7`, the
difference is `7` while the coefficient is `0`. -/
theorem C2_counterexample :
    binomial_log (fun _ => 0) (fun _ => 7) false false 0 1 (1/2) = some 7
      ∧ binomial_log (fun _ => 0) (fun _ => 7) true false 0 1 (1/2) = some 0
      ∧ (7 : ℚ) - 0 ≠ binomial_coefficient_log (fun _ => 0) (fun _ => 7) 1 0 := by
  refine ⟨?_, ?_, ?_⟩ <;>
    norm_num [binomial_log, include_summand, binomial_coefficient_log,
      lgammaForm, multiply_log, log1pCore]

/-- C2 as amended: when `theta` has a differentiable scalar type, the
`propto=false` and `propto=true` evaluations of `binomial_log` both
succeed on valid input and differ exactly by
`binomial_coefficient_log(N, n)`, independent of `theta`. -/
theorem C2_propto_difference_var_theta (lgamma log : ℚ → ℚ)
    (n N : ℤ) (theta : ℚ)
    (h1 : 0 ≤ n) (h2 : n ≤ N) (h3 : 0 ≤ theta) (h4 : theta ≤ 1) :
    ∃ a b : ℚ,
      binomial_log lgamma log false true n N theta = some a
        ∧ binomial_log lgamma log true true n N theta = some b
        ∧ a - b = binomial_coefficient_log lgamma log (N : ℚ) (n : ℚ) := by
  refine ⟨binomial_coefficient_log lgamma log (N : ℚ) (n : ℚ)
      + (multiply_log log (n : ℚ) theta
        + ((N : ℚ) - (n : ℚ)) * log1pCore log (-theta)),
    multiply_log log (n : ℚ) theta
      + ((N : ℚ) - (n : ℚ)) * log1pCore log (-theta), ?_, ?_, by ring⟩ <;>
  · rw [binomial_log, if_neg (not_not_intro ⟨h1, h2⟩),
      if_neg (not_not_intro (h1.trans h2)), if_neg (not_not_intro ⟨h3, h4⟩)]
    norm_num [include_summand]

/-- Witness for C2 (amended) at `n = 0`, `N = 1`, `theta = 1/2`. -/
theorem C2_witness :
    (0 : ℤ) ≤ 0 ∧ (0 : ℤ) ≤ 1 ∧ (0 : ℚ) ≤ 1/2 ∧ (1/2 : ℚ) ≤ 1
      ∧ ∃ a b : ℚ,
        binomial_log (fun _ => 0) (fun _ => 7) false true 0 1 (1/2) = some a
          ∧ binomial_log (fun _ => 0) (fun _ => 7) true true 0 1 (1/2) = some b
          ∧ a - b = binomial_coefficient_log (fun _ => 0) (fun _ => 7) 1 0 :=
  ⟨le_refl 0, by norm_num, by norm_num, by norm_num,
    C2_propto_difference_var_theta (fun _ => 0) (fun _ => 7) 0 1 (1/2)
      (le_refl 0) (by norm_num) (by norm_num) (by norm_num)⟩

/-- C10: with `propto=true` and a plain (non-differentiable) `theta`,
every summand of `binomial_log` is elided by `include_summand` and the
result is exactly `0` for every valid input. -/
theorem C10_propto_plain_zero (lgamma log : ℚ → ℚ) (n N : ℤ) (theta : ℚ)
    (h1 : 0 ≤ n) (h2 : n ≤ N) (h3 : 0 ≤ theta) (h4 : theta ≤ 1) :
    binomial_log lgamma log true false n N theta = some 0 := by
  rw [binomial_log, if_neg (not_not_intro ⟨h1, h2⟩),
    if_neg (not_not_intro (h1.trans h2)), if_neg (not_not_intro ⟨h3, h4⟩)]
  norm_num [include_summand]

/-- Witness for C10 at `n = 0`, `N = 1`, `theta = 1/2`. -/
theorem C10_witness :
    (0 : ℤ) ≤ 0 ∧ (0 : ℤ) ≤ 1 ∧ (0 : ℚ) ≤ 1/2 ∧ (1/2 : ℚ) ≤ 1
      ∧ binomial_log (fun _ => 0) (fun _ => 7) true false 0 1 (1/2) = some 0 :=
  ⟨le_refl 0, by norm_num, by norm_num, by norm_num,
    C10_propto_plain_zero (fun _ => 0) (fun _ => 7) 0 1 (1/2)
      (le_refl 0) (by norm_num) (by norm_num) (by norm_num)⟩

/-- C7: the pairwise `log_sum_exp` is commutative on every pair of double
values (finite, infinite or NaN), and `-inf` is its right identity on
finite values: the `a > b` branch computes `a + log1p(exp(-inf)) =
a + log1p(0) = a`, the inner `log1p` returning `0` at `0` by its
first-order-Taylor branch for any log collaborator. -/
theorem C7_log_sum_exp_comm_identity (exp log : ℚ → ℚ) :
    (∀ a b : D, log_sum_exp exp log a b = log_sum_exp exp log b a)
      ∧ (∀ a : ℚ, log_sum_exp exp log (D.fin a) D.ninf = D.fin a) := by
  constructor
  · intro a b
    rcases a with _ | _ | _ | qa <;> rcases b with _ | _ | _ | qb <;> try rfl
    unfold log_sum_exp
    split_ifs with h1 h2 h2
    · simp only [dGT, decide_eq_true_eq] at h1 h2
      exact absurd h2 (not_lt.2 h1.le)
    · rfl
    · rfl
    · simp only [dGT, gt_iff_lt, decide_eq_true_eq] at h1 h2
      have hq : qa = qb := le_antisymm (not_lt.1 h1) (not_lt.1 h2)
      rw [hq]
  · intro a
    have h0 : log1pCore log 0 = 0 := by norm_num [log1pCore]
    show dAdd (D.fin a) (dLog1p log (dExp exp (dSub D.ninf (D.fin a)))) = D.fin a
    simp [dSub, dExp, dLog1p, dAdd, h0]

/-- The max-finding loop of the n-ary `log_sum_exp` computes the fold of
`max` (the conditional update `if max < v then v else max` is `max`). -/
lemma foldl_if_lt_eq_max (x : List ERat) (a : ERat) :
    x.foldl (fun m v => if m < v then v else m) a = x.foldl max a := by
  induction x generalizing a with
  | nil => rfl
  | cons v t ih =>
    simp only [List.foldl_cons]
    rw [ih]
    rcases lt_or_ge a v with h | h
    · rw [if_pos h, max_eq_right h.le]
    · rw [if_neg (not_lt.2 h), max_eq_left h]

/-- A `max`-fold bounds its start value and every list element. -/
lemma le_foldl_max (x : List ERat) (a : ERat) :
    a ≤ x.foldl max a ∧ ∀ v ∈ x, v ≤ x.foldl max a := by
  induction x generalizing a with
  | nil => exact ⟨le_refl a, by simp⟩
  | cons u t ih =>
    simp only [List.foldl_cons]
    obtain ⟨h1, h2⟩ := ih (max a u)
    refine ⟨le_trans (le_max_left a u) h1, ?_⟩
    intro v hv
    rcases List.mem_cons.1 hv with rfl | hv
    · exact le_trans (le_max_right a v) h1
    · exact h2 v hv

/-- A `max`-fold returns its start value or a list element. -/
lemma foldl_max_mem (x : List ERat) (a : ERat) :
    x.foldl max a = a ∨ x.foldl max a ∈ x := by
  induction x generalizing a with
  | nil => exact Or.inl rfl
  | cons u t ih =>
    simp only [List.foldl_cons]
    rcases ih (max a u) with h | h
    · rcases max_choice a u with h2 | h2
      · exact Or.inl (by rw [h, h2])
      · exact Or.inr (by rw [h, h2]; exact List.mem_cons_self u t)
    · exact Or.inr (List.mem_cons_of_mem u h)

lemma finiteEntries_nil : finiteEntries [] = [] := rfl

lemma finiteEntries_cons_bot (t : List ERat) :
    finiteEntries (⊥ :: t) = finiteEntries t := rfl

lemma finiteEntries_cons_coe (q : ℚ) (t : List ERat) :
    finiteEntries (((q : ℚ) : ERat) :: t) = q :: finiteEntries t := rfl

/-- A finite entry of the input vector is a member of it. -/
lemma mem_of_mem_finiteEntries {q : ℚ} {x : List ERat}
    (h : q ∈ finiteEntries x) : ((q : ℚ) : ERat) ∈ x := by
  induction x with
  | nil => simp [finiteEntries_nil] at h
  | cons v t ih =>
    induction v using WithBot.recBotCoe with
    | bot =>
      rw [finiteEntries_cons_bot] at h
      exact List.mem_cons_of_mem _ (ih h)
    | coe p =>
      rw [finiteEntries_cons_coe] at h
      rcases List.mem_cons.1 h with rfl | h
      · exact List.mem_cons_self _ _
      · exact List.mem_cons_of_mem _ (ih h)

/-- The accumulation loop of the n-ary `log_sum_exp` equals the sum of
`exp(x_i - max)` over the finite entries, for every start accumulator. -/
lemma lseSum_eq (exp : ℚ → ℚ) (m : ℚ) (x : List ERat) (s : ℚ) :
    x.foldl (fun s v => WithBot.recBotCoe s (fun q => s + exp (q - m)) v) s
      = s + ((finiteEntries x).map (fun q => exp (q - m))).sum := by
  induction x generalizing s with
  | nil => simp [finiteEntries_nil]
  | cons v t ih =>
    induction v using WithBot.recBotCoe with
    | bot =>
      rw [List.foldl_cons, finiteEntries_cons_bot]
      exact ih s
    | coe p =>
      rw [List.foldl_cons, finiteEntries_cons_coe, List.map_cons, List.sum_cons]
      rw [show (WithBot.recBotCoe s (fun q => s + exp (q - m))
          ((p : ℚ) : ERat) : ℚ) = s + exp (p - m) from rfl]
      rw [ih (s + exp (p - m))]
      ring

/-- C8: whenever the input vector has a finite maximum `m` (that is, at
least one finite entry), the n-ary `log_sum_exp` returns exactly
`m + log(Σ exp(x_i - m))` with the sum running over the entries different
from `-inf` (so `-inf` entries are excluded instead of producing NaN),
`m` is a member of the vector, and every argument handed to `exp` is
`≤ 0`, so exponentiation cannot overflow for arbitrarily large finite
inputs. -/
theorem C8_log_sum_exp_vec (exp log : ℚ → ℚ) (x : List ERat) (m : ℚ)
    (h : x.foldl max ⊥ = ((m : ℚ) : ERat)) :
    log_sum_exp_vec exp log x
        = ((m + log (((finiteEntries x).map (fun q => exp (q - m))).sum) : ℚ) : ERat)
      ∧ ((m : ℚ) : ERat) ∈ x
      ∧ (∀ q ∈ finiteEntries x, q - m ≤ 0) := by
  have hmax : lseMax x = ((m : ℚ) : ERat) := by
    rw [lseMax, foldl_if_lt_eq_max]
    exact h
  refine ⟨?_, ?_, ?_⟩
  · rw [log_sum_exp_vec, hmax, WithBot.recBotCoe_coe]
    have hs : lseSum exp m x
        = ((finiteEntries x).map (fun q => exp (q - m))).sum := by
      rw [lseSum, lseSum_eq, zero_add]
    rw [hs]
  · rcases foldl_max_mem x ⊥ with h2 | h2
    · rw [h] at h2
      exact absurd h2 (WithBot.coe_ne_bot)
    · rw [h] at h2
      exact h2
  · intro q hq
    have hle : ((q : ℚ) : ERat) ≤ x.foldl max ⊥ :=
      (le_foldl_max x ⊥).2 _ (mem_of_mem_finiteEntries hq)
    rw [h] at hle
    have : q ≤ m := WithBot.coe_le_coe.1 hle
    linarith

/-- Witness for C8 on the vector `[3, -inf, 1]` with its finite maximum
`3`, `exp = const 1` and `log` the identity. -/
theorem C8_witness :
    ([((3 : ℚ) : ERat), ⊥, ((1 : ℚ) : ERat)].foldl max ⊥ = ((3 : ℚ) : ERat))
      ∧ (log_sum_exp_vec (fun _ => 1) (fun q => q)
            [((3 : ℚ) : ERat), ⊥, ((1 : ℚ) : ERat)]
          = ((3 + ((finiteEntries [((3 : ℚ) : ERat), ⊥, ((1 : ℚ) : ERat)]).map
              (fun q => (fun _ => (1 : ℚ)) (q - 3))).sum : ℚ) : ERat)
        ∧ ((3 : ℚ) : ERat) ∈ [((3 : ℚ) : ERat), ⊥, ((1 : ℚ) : ERat)]
        ∧ ∀ q ∈ finiteEntries [((3 : ℚ) : ERat), ⊥, ((1 : ℚ) : ERat)],
            q - 3 ≤ 0) := by
  have hfold : [((3 : ℚ) : ERat), ⊥, ((1 : ℚ) : ERat)].foldl max ⊥
      = ((3 : ℚ) : ERat) := by
    show max (max (max (⊥ : ERat) ((3 : ℚ) : ERat)) ⊥) ((1 : ℚ) : ERat)
        = ((3 : ℚ) : ERat)
    rw [max_eq_right bot_le, max_eq_left bot_le,
      max_eq_left (WithBot.coe_le_coe.2 (by norm_num))]
  exact ⟨hfold, C8_log_sum_exp_vec (fun _ => 1) (fun q => q) _ 3 hfold⟩

end Stan

namespace Stan

/-- The 1-by-1 matrix with the given entry. -/
def mat1 (q : ℚ) : Mat := ⟨1, 1, fun _ _ => q⟩

/-- Modelled from the spec: a concrete 1-by-1 instantiation of the
linear-algebra collaborator (§6), used to evaluate `wishart_log` on
concrete 1-by-1 inputs — entrywise determinant/trace, reciprocal
inverse, and scalar multiplication. -/
def linAlg1 : LinAlg where
  det := fun M => M.entry 0 0
  tr := fun M => M.entry 0 0
  inv := fun M => ⟨M.rows, M.cols, fun i j => 1 / M.entry i j⟩
  mul := fun A B => ⟨A.rows, B.cols, fun i j => A.entry i 0 * B.entry 0 j⟩

/-- C4: at the validated input `k = 1`, `W = [[-3]]`, `nu = 2`,
`S = [[1]]` (all checks pass; the symmetry/PSD checks are a FIXME in the
source and absent), the code accumulates `-0.5 * fabs(trace(S^-1 W)) =
-3/2`, while the signed term `-0.5 * trace(S^-1 W)` of the claim — and of
the doxygen formula in wishart.hpp itself — is `+3/2`.  Constant
collaborators `lgamma = log = const 0` zero out every other summand. -/
theorem C4_trace_term_fabs :
    wishart_log linAlg1 0 (fun _ => 0) (fun _ => 0) false false false false
        (mat1 (-3)) 2 (mat1 1) = some (-(3/2))
      ∧ -(1/2) * linAlg1.tr (linAlg1.mul (linAlg1.inv (mat1 1)) (mat1 (-3)))
          = 3/2 := by
  have habs : |(-3 : ℚ)| = 3 := by
    rw [abs_of_neg (by norm_num)]
    norm_num
  constructor
  · rw [wishart_log]
    norm_num [include_summand, lmgamma, multiply_log, linAlg1, mat1, habs]
  · norm_num [linAlg1, mat1]

/-- C5: for `1 ≤ W.rows` (the C++ dimension `k` is unsigned, so `k - 1`
is the mathematical value exactly when `k ≥ 1`), `wishart_log` with
`propto = false` returns the policy sentinel — without computing any
density term — precisely when `nu < k - 1`, `W` is not square, `S` is
not square, or the dimensions of `W` and `S` mismatch; and on
`nu = k + 1`, `S = W = identity(k)` it succeeds with a (finite rational)
value. -/
theorem C5_wishart_validation (la : LinAlg) (logPiOverFour : ℚ)
    (lgamma log : ℚ → ℚ) (W S : Mat) (nu : ℚ) (hW : 1 ≤ W.rows)
    (k : ℕ) (hk : 1 ≤ k) :
    (wishart_log la logPiOverFour lgamma log false false false false W nu S = none
        ↔ nu < (W.rows : ℚ) - 1 ∨ W.rows ≠ W.cols ∨ S.rows ≠ S.cols
            ∨ W.rows ≠ S.rows)
      ∧ (wishart_log la logPiOverFour lgamma log false false false false
          (identityMat k) ((k : ℚ) + 1) (identityMat k)).isSome := by
  constructor
  · rw [wishart_log]
    by_cases h1 : (W.rows : ℚ) - 1 ≤ nu
    · rw [if_neg (not_not_intro h1)]
      by_cases h2 : W.rows = W.cols
      · rw [if_neg (not_not_intro h2)]
        by_cases h3 : S.rows = S.cols
        · rw [if_neg (not_not_intro h3)]
          by_cases h4 : W.rows = S.rows
          · rw [if_neg (not_not_intro h4)]
            refine iff_of_false (by simp) ?_
            rintro (h | h | h | h)
            · exact absurd h1 (not_le.2 h)
            · exact absurd h2 h
            · exact absurd h3 h
            · exact absurd h4 h
          · rw [if_pos h4]
            exact iff_of_true rfl (Or.inr (Or.inr (Or.inr h4)))
        · rw [if_pos h3]
          exact iff_of_true rfl (Or.inr (Or.inr (Or.inl h3)))
      · rw [if_pos h2]
        exact iff_of_true rfl (Or.inr (Or.inl h2))
    · rw [if_pos h1]
      exact iff_of_true rfl (Or.inl (not_le.1 h1))
  · have hrc : (identityMat k).rows = (identityMat k).cols := rfl
    have hrr : (identityMat k).rows = (identityMat k).rows := rfl
    rw [wishart_log,
      if_neg (not_not_intro (show ((identityMat k).rows : ℚ) - 1 ≤ (k : ℚ) + 1 by
        show ((k : ℕ) : ℚ) - 1 ≤ (k : ℚ) + 1
        linarith)),
      if_neg (not_not_intro hrc), if_neg (not_not_intro hrr),
      if_neg (not_not_intro hrc)]
    rfl

/-- Witness for C5 with the 1-by-1 collaborator, a non-square `W`
(1 row, 2 columns) exercising the error side of the equivalence, and
`k = 1` for the identity-matrix success side. -/
theorem C5_witness :
    (1 ≤ (Mat.mk 1 2 fun _ _ => 0).rows) ∧ (1 ≤ 1)
      ∧ ((wishart_log linAlg1 0 (fun _ => 0) (fun _ => 0) false false false false
            (Mat.mk 1 2 fun _ _ => 0) 0 (mat1 1) = none
          ↔ (0 : ℚ) < ((Mat.mk 1 2 fun _ _ => (0 : ℚ)).rows : ℚ) - 1
              ∨ (Mat.mk 1 2 fun _ _ => (0 : ℚ)).rows ≠ (Mat.mk 1 2 fun _ _ => (0 : ℚ)).cols
              ∨ (mat1 1).rows ≠ (mat1 1).cols
              ∨ (Mat.mk 1 2 fun _ _ => (0 : ℚ)).rows ≠ (mat1 1).rows)
        ∧ (wishart_log linAlg1 0 (fun _ => 0) (fun _ => 0) false false false false
            (identityMat 1) ((1 : ℚ) + 1) (identityMat 1)).isSome) := by
  refine ⟨le_refl 1, le_refl 1, ?_⟩
  have h := C5_wishart_validation linAlg1 0 (fun _ => 0) (fun _ => 0)
    (Mat.mk 1 2 fun _ _ => 0) (mat1 1) 0 (le_refl 1) 1 (le_refl 1)
  exact_mod_cast h

end Stan
